import Mathlib

/-!
Verification of the model-catalog cache, filter engine and formatter of the
poe-mcp repository (file models.go / part_004), against its design spec.

The Go code is embedded shallowly:
* `models.Model` (from the go-poe library, consumed read-only) becomes a Lean
  structure with the fields the code reads: `ID`, `Metadata.DisplayName`,
  `Description`, `OwnedBy`, `Architecture.Modality`, the optional
  `ContextWindow` record and the optional `Pricing` record.
* `strings.ToLower`, `strings.Fields`, `strings.Contains` and `strings.Join`
  are modelled over `List Char` (`toLowerS`, `fields`, `containsSub`,
  `String.intercalate`).  Case mapping is modelled on the ASCII range, the
  range exercised by the catalog data and the spec's examples.
* `modelCache.get` becomes a pure state transformer: the ambient clock is an
  explicit `now : Int` (nanoseconds, as Go's `time.Duration`), the outcome of
  `models.Fetch` is an explicit `Except` argument, and the returned `Bool`
  records whether the fetcher was invoked.  Under sequential execution the
  read-locked check and the double-check after the write lock evaluate the
  same condition; both are kept.
-/

/-- Model of Go `strings.ToLower` (ASCII case mapping). -/
def toLowerS (s : String) : String :=
  String.mk (s.data.map Char.toLower)

/-- Model of Go `unicode.IsSpace` on the ASCII range, as used by
`strings.Fields`. -/
def goIsSpace (c : Char) : Bool :=
  c == ' ' || c == '\t' || c == '\n' || c == '\x0b' || c == '\x0c' || c == '\r'

/-- Worker for `fields`: accumulates the current word (reversed) while
scanning the character list. -/
def fieldsAux : List Char → List Char → List String
  | [], acc => if acc.isEmpty then [] else [String.mk acc.reverse]
  | c :: cs, acc =>
    if goIsSpace c then
      if acc.isEmpty then fieldsAux cs []
      else String.mk acc.reverse :: fieldsAux cs []
    else fieldsAux cs (c :: acc)

/-- Model of Go `strings.Fields`: split around runs of whitespace. -/
def fields (s : String) : List String :=
  fieldsAux s.data []

/-- Scan for `sub` as a contiguous sublist, trying every suffix. -/
def containsAux (sub : List Char) : List Char → Bool
  | [] => sub.isEmpty
  | c :: cs => sub.isPrefixOf (c :: cs) || containsAux sub cs

/-- Model of Go `strings.Contains s sub`: `sub` occurs as a contiguous
substring of `s`. -/
def containsSub (s sub : String) : Bool :=
  containsAux sub.data s.data

/-- The optional pricing record of a model (go-poe `models.Pricing`), all
four sub-fields independently optional decimal strings. -/
structure Pricing where
  prompt : Option String
  completion : Option String
  request : Option String
  image : Option String
deriving DecidableEq, Repr

/-- The optional context-window record of a model (go-poe
`models.ContextWindow`). -/
structure ContextWindow where
  contextLength : Int
  maxOutputTokens : Option Int
deriving DecidableEq, Repr

/-- The catalog entry (go-poe `models.Model`), restricted to the fields the
code reads.  `displayName` stands for `Metadata.DisplayName` and `modality`
for `Architecture.Modality`. -/
structure Model where
  id : String
  displayName : String
  description : String
  ownedBy : String
  modality : String
  contextWindow : Option ContextWindow
  pricing : Option Pricing
deriving DecidableEq, Repr

/-- Input schema of the `search_models` tool (`SearchModelsArgs`). -/
structure SearchModelsArgs where
  query : String
  ownedBy : String
  modality : String
deriving DecidableEq, Repr

/-- `matchesQuery` from models.go: every word of the (already lowercased)
query must appear somewhere in the combined lowercase searchable text. -/
def matchesQuery (m : Model) (query : String) : Bool :=
  let combined := toLowerS (String.intercalate " "
    [m.id, m.displayName, m.description, m.ownedBy])
  (fields query).all (fun word => containsSub combined word)

/-- The per-model keep/skip decision of the loop body of `filterModels`:
each `continue` branch of the Go loop becomes a `false` branch here. -/
def keepModel (query ownedBy modality : String) (m : Model) : Bool :=
  if !(query == "") && !(matchesQuery m query) then false
  else if !(ownedBy == "") && !(toLowerS m.ownedBy == ownedBy) then false
  else if !(modality == "") && !(containsSub (toLowerS m.modality) modality) then false
  else true

/-- `filterModels` from models.go: lowercase the three criteria once, then
keep, in order, the models that pass every specified criterion. -/
def filterModels (all : List Model) (args : SearchModelsArgs) : List Model :=
  all.filter
    (keepModel (toLowerS args.query) (toLowerS args.ownedBy) (toLowerS args.modality))

/-- `formatModel` from models.go: one text block per model, built by the
same sequence of conditional appends as the Go `strings.Builder` code. -/
def formatModel (m : Model) : String :=
  let s := "## " ++ m.id ++ "\n"
  let s := if m.displayName ≠ "" ∧ m.displayName ≠ m.id then
      s ++ "Display Name: " ++ m.displayName ++ "\n" else s
  let s := s ++ "Owner: " ++ m.ownedBy ++ "\n"
  let s := if m.modality ≠ "" then s ++ "Modality: " ++ m.modality ++ "\n" else s
  let s := if m.description ≠ "" then s ++ "Description: " ++ m.description ++ "\n" else s
  let s := match m.contextWindow with
    | none => s
    | some cw =>
      let s := s ++ "Context Length: " ++ toString cw.contextLength ++ " tokens\n"
      match cw.maxOutputTokens with
      | none => s
      | some mot => s ++ "Max Output: " ++ toString mot ++ " tokens\n"
  match m.pricing with
  | none => s
  | some p =>
    let s := s ++ "Pricing:"
    let s := match p.prompt with
      | none => s
      | some v => s ++ " prompt=" ++ v
    let s := match p.completion with
      | none => s
      | some v => s ++ " completion=" ++ v
    let s := match p.request with
      | none => s
      | some v => s ++ " request=" ++ v
    let s := match p.image with
      | none => s
      | some v => s ++ " image=" ++ v
    s ++ "\n"

/-- `formatModels` from models.go: count header, then the blocks separated
by one extra newline (the Go loop writes `"\n"` before every block but the
first). -/
def formatModels (matched : List Model) : String :=
  "Found " ++ toString matched.length ++ " model(s):\n\n" ++
    String.intercalate "\n" (matched.map formatModel)

/-- `cacheTTL = 15 * time.Minute`, in nanoseconds as Go's `time.Duration`. -/
def cacheTTL : Int := 15 * 60 * 1000000000

/-- The cache record (`modelCache` struct): last fetched entries and their
fetch timestamp.  The `sync.RWMutex` has no sequential content. -/
structure modelCache where
  models : List Model
  fetchedAt : Int
deriving DecidableEq, Repr

/-- `modelCache.get`, sequential semantics.  `now` is the current clock,
`fetch` the outcome `models.Fetch` would produce if invoked.  Returns the
result, the post-state, and whether the fetcher was invoked.  The first
`if` is the read-locked freshness check, the second the double-check after
acquiring the write lock; `time.Since(c.fetchedAt) = now - c.fetchedAt`. -/
def modelCache.get (c : modelCache) (now : Int)
    (fetch : Except String (List Model)) :
    Except String (List Model) × modelCache × Bool :=
  if c.models.length > 0 ∧ now - c.fetchedAt < cacheTTL then
    (Except.ok c.models, c, false)
  else if c.models.length > 0 ∧ now - c.fetchedAt < cacheTTL then
    (Except.ok c.models, c, false)
  else
    match fetch with
    | Except.error e => (Except.error e, c, true)
    | Except.ok fetched => (Except.ok fetched, { models := fetched, fetchedAt := now }, true)

/-- The pricing summary described by spec §4.3: concatenation of whichever
of the four sub-fields exist, each as a space-separated `key=value` piece. -/
def pricingSummary (p : Pricing) : String :=
  (match p.prompt with
    | none => ""
    | some v => " prompt=" ++ v) ++
  (match p.completion with
    | none => ""
    | some v => " completion=" ++ v) ++
  (match p.request with
    | none => ""
    | some v => " request=" ++ v) ++
  (match p.image with
    | none => ""
    | some v => " image=" ++ v)

/-- The list of lines of a single-model block as spec §4.3 describes it, in
fixed order, each optional line present only under its stated condition. -/
def specModelLines (m : Model) : List String :=
  ["## " ++ m.id] ++
  (if m.displayName ≠ "" ∧ m.displayName ≠ m.id then
    ["Display Name: " ++ m.displayName] else []) ++
  ["Owner: " ++ m.ownedBy] ++
  (if m.modality ≠ "" then ["Modality: " ++ m.modality] else []) ++
  (if m.description ≠ "" then ["Description: " ++ m.description] else []) ++
  (match m.contextWindow with
    | none => []
    | some cw =>
      ["Context Length: " ++ toString cw.contextLength ++ " tokens"] ++
      (match cw.maxOutputTokens with
        | none => []
        | some mot => ["Max Output: " ++ toString mot ++ " tokens"])) ++
  (match m.pricing with
    | none => []
    | some p => ["Pricing:" ++ pricingSummary p])

/-- A single-model block per the spec: its lines, each newline-terminated. -/
def specModelBlock (m : Model) : String :=
  String.join ((specModelLines m).map (fun line => line ++ "\n"))

/-- Intersection of two model lists by model id, keeping the order of the
first list (the spec's "set intersection by identity/id"). -/
def interById (xs ys : List Model) : List Model :=
  xs.filter (fun m => ys.any (fun n => n.id == m.id))

/-- Sample catalog entry used by witnesses. -/
def mGpt : Model :=
  { id := "gpt-4o", displayName := "GPT-4o", description := "",
    ownedBy := "OpenAI", modality := "text,image->text",
    contextWindow := none, pricing := none }

/-- Sample catalog entry used by witnesses. -/
def mDalle : Model :=
  { id := "dall-e-3", displayName := "", description := "image generation",
    ownedBy := "OpenAI", modality := "text->image",
    contextWindow := none, pricing := none }

/-- Sample catalog entry with a pricing record whose sub-fields are all
absent, used by witnesses. -/
def mPricingBare : Model :=
  { id := "bot", displayName := "", description := "", ownedBy := "Poe",
    modality := "", contextWindow := none,
    pricing := some { prompt := none, completion := none,
                      request := none, image := none } }

theorem toLowerS_eq_empty_iff (s : String) : toLowerS s = "" ↔ s = "" := by
  constructor
  · intro h
    have hd : (toLowerS s).data = ("" : String).data := by rw [h]
    simp only [toLowerS] at hd
    have : s.data = [] := List.map_eq_nil_iff.mp hd
    cases s
    simp_all
  · intro h
    subst h
    rfl

theorem keepModel_eq (q o mo : String) (m : Model) :
    keepModel q o mo m =
      (((q == "") || matchesQuery m q) &&
       (((o == "") || (toLowerS m.ownedBy == o)) &&
        ((mo == "") || containsSub (toLowerS m.modality) mo))) := by
  unfold keepModel
  cases hq : q == "" <;> cases hmq : matchesQuery m q <;>
    cases ho : o == "" <;> cases how : toLowerS m.ownedBy == o <;>
      cases hmo : mo == "" <;> cases hc : containsSub (toLowerS m.modality) mo <;>
        simp

theorem keepModel_eq_true_iff (q o mo : String) (m : Model) :
    keepModel q o mo m = true ↔
      (q = "" ∨ matchesQuery m q = true) ∧
      (o = "" ∨ toLowerS m.ownedBy = o) ∧
      (mo = "" ∨ containsSub (toLowerS m.modality) mo = true) := by
  rw [keepModel_eq]
  simp

theorem mem_filterModels (all : List Model) (args : SearchModelsArgs) (m : Model) :
    m ∈ filterModels all args ↔
      m ∈ all ∧
        keepModel (toLowerS args.query) (toLowerS args.ownedBy)
          (toLowerS args.modality) m = true := by
  unfold filterModels
  exact List.mem_filter

theorem keep_split_query_owner (q o : String) (m : Model) :
    keepModel q o "" m = (keepModel q "" "" m && keepModel "" o "" m) := by
  simp [keepModel_eq]

theorem keep_split_query_modality (q mo : String) (m : Model) :
    keepModel q "" mo m = (keepModel q "" "" m && keepModel "" "" mo m) := by
  simp [keepModel_eq]

theorem keep_split_owner_modality (o mo : String) (m : Model) :
    keepModel "" o mo m = (keepModel "" o "" m && keepModel "" "" mo m) := by
  simp [keepModel_eq]

theorem interById_filter (all : List Model) (p q : Model → Bool)
    (h : (all.map Model.id).Nodup) :
    interById (all.filter p) (all.filter q) = all.filter (fun m => p m && q m) := by
  unfold interById
  rw [List.filter_filter]
  apply List.filter_congr
  intro m hm
  have hinj := List.inj_on_of_nodup_map h
  have hany : ((all.filter q).any (fun n => n.id == m.id)) = q m := by
    cases hq : q m with
    | true =>
      apply List.any_eq_true.mpr
      exact ⟨m, List.mem_filter.mpr ⟨hm, hq⟩, by simp⟩
    | false =>
      apply Bool.eq_false_iff.mpr
      intro hc
      obtain ⟨n, hn, hid⟩ := List.any_eq_true.mp hc
      obtain ⟨hnall, hnq⟩ := List.mem_filter.mp hn
      have : n = m := hinj hnall hm (by simpa using hid)
      subst this
      rw [hq] at hnq
      exact Bool.false_ne_true hnq
  rw [hany, Bool.and_comm]

theorem filter_self_idem {α : Type} (p : α → Bool) (l : List α) :
    (l.filter p).filter p = l.filter p := by
  rw [List.filter_filter]
  apply List.filter_congr
  intro a _
  exact Bool.and_self (p a)

theorem modelCache.get_fresh (c : modelCache) (now : Int)
    (fetch : Except String (List Model))
    (h : c.models ≠ [] ∧ now - c.fetchedAt < cacheTTL) :
    modelCache.get c now fetch = (Except.ok c.models, c, false) := by
  have h' : c.models.length > 0 ∧ now - c.fetchedAt < cacheTTL :=
    ⟨List.length_pos.mpr h.1, h.2⟩
  unfold modelCache.get
  rw [if_pos h']

theorem modelCache.get_stale (c : modelCache) (now : Int)
    (fetch : Except String (List Model))
    (h : ¬(c.models ≠ [] ∧ now - c.fetchedAt < cacheTTL)) :
    modelCache.get c now fetch =
      match fetch with
      | Except.error e => (Except.error e, c, true)
      | Except.ok fetched =>
        (Except.ok fetched, { models := fetched, fetchedAt := now }, true) := by
  have h' : ¬(c.models.length > 0 ∧ now - c.fetchedAt < cacheTTL) := by
    intro hc
    exact h ⟨List.length_pos.mp hc.1, hc.2⟩
  unfold modelCache.get
  rw [if_neg h', if_neg h']

theorem chr_toLower_of_space {c : Char} (h : goIsSpace c = true) :
    Char.toLower c = c := by
  simp only [goIsSpace, Bool.or_eq_true, beq_iff_eq] at h
  rcases h with ((((h | h) | h) | h) | h) | h <;> subst h <;> decide

theorem fieldsAux_all_space (l : List Char) (h : ∀ c ∈ l, goIsSpace c = true) :
    fieldsAux l [] = [] := by
  induction l with
  | nil => rfl
  | cons c cs ih =>
    have hc : goIsSpace c = true := h c (List.mem_cons_self c cs)
    simp only [fieldsAux, hc, if_true, List.isEmpty_nil, if_pos]
    exact ih (fun x hx => h x (List.mem_cons_of_mem c hx))

theorem str_data_empty : ("" : String).data = [] := rfl

theorem data_ite (c : Prop) [Decidable c] (a b : String) :
    (if c then a else b).data = if c then a.data else b.data :=
  apply_ite String.data c a b

theorem map_ite_list {α β : Type} (f : α → β) (c : Prop) [Decidable c]
    (a b : List α) :
    (if c then a else b).map f = if c then a.map f else b.map f :=
  apply_ite (List.map f) c a b

theorem flatten_ite_list {α : Type} (c : Prop) [Decidable c]
    (a b : List (List α)) :
    (if c then a else b).flatten = if c then a.flatten else b.flatten :=
  apply_ite List.flatten c a b

theorem ite_app3_data (c : Prop) [Decidable c] (s a b d : List Char) :
    (if c then ((s ++ a) ++ b) ++ d else s) = s ++ (if c then (a ++ b) ++ d else []) := by
  split <;> simp

set_option maxHeartbeats 1600000 in
theorem formatModel_eq_block (m : Model) : formatModel m = specModelBlock m := by
  obtain ⟨mid, mdn, mdesc, mob, mmod, mcw, mpr⟩ := m
  rcases mcw with _ | ⟨cl, mot⟩ <;> try rcases mot with _ | mot
  all_goals rcases mpr with _ | ⟨pp, pc, prq, pi⟩
  all_goals try rcases pp with _ | pp
  all_goals try rcases pc with _ | pc
  all_goals try rcases prq with _ | prq
  all_goals try rcases pi with _ | pi
  all_goals (
    apply String.ext
    simp only [formatModel, specModelBlock, specModelLines, pricingSummary,
      String.join_eq]
    simp only [String.data_append, data_ite, ite_app3_data]
    simp [str_data_empty, map_ite_list, flatten_ite_list, Function.comp])

theorem fields_toLowerS_all_space (q : String)
    (h : ∀ c ∈ q.data, goIsSpace c = true) :
    fields (toLowerS q) = [] := by
  unfold fields toLowerS
  apply fieldsAux_all_space
  intro c hc
  obtain ⟨d, hd, rfl⟩ := List.mem_map.mp hc
  rw [chr_toLower_of_space (h d hd)]
  exact h d hd

theorem toLowerS_empty : toLowerS "" = "" := rfl

/-- C1: `modelCache.get` serves the cached entries without invoking the
fetcher iff the entry list is non-empty and the elapsed time since
`fetchedAt` is strictly below the 15-minute TTL; otherwise it invokes the
fetcher.  Hence after a stale `get` fetched a non-empty catalog, a second
`get` within the TTL window performs no fetch (one fetch across the two
calls), while a `get` at or past the TTL fetches again. -/
theorem c1_cache_ttl_freshness :
    (∀ (c : modelCache) (now : Int) (fetch : Except String (List Model)),
        ((modelCache.get c now fetch).2.2 = false ↔
          c.models ≠ [] ∧ now - c.fetchedAt < cacheTTL) ∧
        (c.models ≠ [] → now - c.fetchedAt < cacheTTL →
          modelCache.get c now fetch = (Except.ok c.models, c, false))) ∧
    (∀ (c0 : modelCache) (catalog : List Model) (t0 t1 t2 : Int)
        (f1 f2 : Except String (List Model)),
        ¬(c0.models ≠ [] ∧ t0 - c0.fetchedAt < cacheTTL) →
        catalog ≠ [] → t1 - t0 < cacheTTL → cacheTTL ≤ t2 - t0 →
        modelCache.get c0 t0 (Except.ok catalog) =
            (Except.ok catalog, ⟨catalog, t0⟩, true) ∧
        (modelCache.get ⟨catalog, t0⟩ t1 f1).2.2 = false ∧
        (modelCache.get ⟨catalog, t0⟩ t2 f2).2.2 = true) := by
  constructor
  · intro c now fetch
    constructor
    · constructor
      · intro h
        by_cases hf : c.models ≠ [] ∧ now - c.fetchedAt < cacheTTL
        · exact hf
        · rw [modelCache.get_stale c now fetch hf] at h
          cases fetch <;> simp at h
      · intro hf
        rw [modelCache.get_fresh c now fetch hf]
    · intro h1 h2
      exact modelCache.get_fresh c now fetch ⟨h1, h2⟩
  · intro c0 catalog t0 t1 t2 f1 f2 hstale hcat ht1 ht2
    refine ⟨?_, ?_, ?_⟩
    · rw [modelCache.get_stale c0 t0 _ hstale]
    · rw [modelCache.get_fresh _ t1 f1 ⟨hcat, by simpa using ht1⟩]
    · have h2 : ¬((⟨catalog, t0⟩ : modelCache).models ≠ [] ∧
          t2 - (⟨catalog, t0⟩ : modelCache).fetchedAt < cacheTTL) := by
        intro hc
        have := hc.2
        simp only at this
        omega
      rw [modelCache.get_stale _ t2 f2 h2]
      cases f2 <;> simp

/-- Witness for C1 at a concrete scenario: empty cache at time 0, fetch of a
one-entry catalog, a hit 1 ns later and a refetch exactly at the TTL. -/
theorem c1_cache_ttl_freshness_witness :
    modelCache.get ⟨[], 0⟩ 0 (Except.ok [mGpt]) =
        (Except.ok [mGpt], ⟨[mGpt], 0⟩, true) ∧
    (modelCache.get ⟨[mGpt], 0⟩ 1 (Except.error "net")).2.2 = false ∧
    (modelCache.get ⟨[mGpt], 0⟩ cacheTTL (Except.error "net")).2.2 = true :=
  c1_cache_ttl_freshness.2 ⟨[], 0⟩ [mGpt] 0 1 cacheTTL
    (Except.error "net") (Except.error "net")
    (by decide) (by decide) (by decide) (by decide)

/-- C2: a failing fetch makes `get` return that exact error with the cache
state unchanged, and any later `get` on that state still attempts the
fetch. -/
theorem c2_error_propagates_state_untouched :
    ∀ (c : modelCache) (now t2 : Int) (e : String)
      (f2 : Except String (List Model)),
      ¬(c.models ≠ [] ∧ now - c.fetchedAt < cacheTTL) →
      now ≤ t2 →
      modelCache.get c now (Except.error e) = (Except.error e, c, true) ∧
      (modelCache.get c t2 f2).2.2 = true := by
  intro c now t2 e f2 hstale hle
  constructor
  · rw [modelCache.get_stale c now _ hstale]
  · have h2 : ¬(c.models ≠ [] ∧ t2 - c.fetchedAt < cacheTTL) := by
      intro hc
      exact hstale ⟨hc.1, by omega⟩
    rw [modelCache.get_stale c t2 f2 h2]
    cases f2 <;> simp

/-- Witness for C2: populated cache whose entry is exactly TTL old; the
fetch fails and a get one nanosecond later fetches again. -/
theorem c2_error_propagates_witness :
    modelCache.get ⟨[mGpt], 0⟩ cacheTTL (Except.error "boom") =
        (Except.error "boom", ⟨[mGpt], 0⟩, true) ∧
    (modelCache.get ⟨[mGpt], 0⟩ (cacheTTL + 1) (Except.ok [mDalle])).2.2 = true :=
  c2_error_propagates_state_untouched ⟨[mGpt], 0⟩ cacheTTL (cacheTTL + 1)
    "boom" (Except.ok [mDalle]) (by decide) (by decide)

/-- C9: a successful fetch of an empty catalog is stored with the new
timestamp and returned with no error, yet every subsequent `get` invokes the
fetcher again, whatever the elapsed time. -/
theorem c9_empty_catalog_never_served_from_cache :
    ∀ (c : modelCache) (now t2 : Int) (f2 : Except String (List Model)),
      ¬(c.models ≠ [] ∧ now - c.fetchedAt < cacheTTL) →
      modelCache.get c now (Except.ok ([] : List Model)) =
          (Except.ok [], ⟨[], now⟩, true) ∧
      (modelCache.get ⟨[], now⟩ t2 f2).2.2 = true := by
  intro c now t2 f2 hstale
  constructor
  · rw [modelCache.get_stale c now _ hstale]
  · have h2 : ¬((⟨[], now⟩ : modelCache).models ≠ [] ∧
        t2 - (⟨[], now⟩ : modelCache).fetchedAt < cacheTTL) := by
      simp
    rw [modelCache.get_stale _ t2 f2 h2]
    cases f2 <;> simp

/-- Witness for C9: empty cache, fetch returns an empty catalog at time 5,
the very next nanosecond a get fetches again. -/
theorem c9_empty_catalog_witness :
    modelCache.get ⟨[], 0⟩ 5 (Except.ok ([] : List Model)) =
        (Except.ok [], ⟨[], 5⟩, true) ∧
    (modelCache.get ⟨[], 5⟩ 6 (Except.ok [mGpt])).2.2 = true :=
  c9_empty_catalog_never_served_from_cache ⟨[], 0⟩ 5 6 (Except.ok [mGpt])
    (by decide)

/-- C3: with a non-empty query criterion (and the other criteria empty) a
model is kept iff every whitespace-separated word of the case-folded
criterion occurs as a substring of the lowercased join of its id, display
name, description and owner; an all-whitespace criterion splits into zero
words and so imposes no constraint. -/
theorem c3_query_word_semantics :
    (∀ (all : List Model) (m : Model) (q : String), q ≠ "" →
        (m ∈ filterModels all ⟨q, "", ""⟩ ↔
          m ∈ all ∧ ∀ w ∈ fields (toLowerS q),
            containsSub (toLowerS (String.intercalate " "
              [m.id, m.displayName, m.description, m.ownedBy])) w = true)) ∧
    (∀ (all : List Model) (q : String),
        (∀ c ∈ q.data, goIsSpace c = true) →
        filterModels all ⟨q, "", ""⟩ = all) := by
  constructor
  · intro all m q hq
    have hq' : ¬(toLowerS q = "") := fun h => hq ((toLowerS_eq_empty_iff q).mp h)
    rw [mem_filterModels]
    simp [keepModel_eq_true_iff, matchesQuery, toLowerS_empty, hq']
  · intro all q hsp
    have hkeep : ∀ m ∈ all,
        keepModel (toLowerS q) (toLowerS "") (toLowerS "") m = true := by
      intro m _
      apply (keepModel_eq_true_iff _ _ _ _).mpr
      refine ⟨Or.inr ?_, Or.inl toLowerS_empty, Or.inl toLowerS_empty⟩
      simp [matchesQuery, fields_toLowerS_all_space q hsp]
    unfold filterModels
    exact List.filter_eq_self.mpr hkeep

/-- Witness for C3: a multi-word query matching across fields, and an
all-whitespace query matching everything. -/
theorem c3_query_word_semantics_witness :
    ((mDalle ∈ filterModels [mGpt, mDalle] ⟨"openai image", "", ""⟩ ↔
        mDalle ∈ [mGpt, mDalle] ∧ ∀ w ∈ fields (toLowerS "openai image"),
          containsSub (toLowerS (String.intercalate " "
            [mDalle.id, mDalle.displayName, mDalle.description,
             mDalle.ownedBy])) w = true)) ∧
    filterModels [mGpt, mDalle] ⟨"   ", "", ""⟩ = [mGpt, mDalle] :=
  ⟨c3_query_word_semantics.1 [mGpt, mDalle] mDalle "openai image" (by decide),
   c3_query_word_semantics.2 [mGpt, mDalle] "   " (by decide)⟩

/-- C5: over a catalog whose ids are pairwise distinct, filtering with two
non-empty criteria equals the id-based intersection of the two single-field
filter results, for each of the three field pairs; and every filter result
is an ordered subsequence (sublist) of the input catalog. -/
theorem c5_and_is_intersection (all : List Model)
    (hids : (all.map Model.id).Nodup) :
    (∀ q o : String, q ≠ "" → o ≠ "" →
      filterModels all ⟨q, o, ""⟩ =
        interById (filterModels all ⟨q, "", ""⟩)
          (filterModels all ⟨"", o, ""⟩)) ∧
    (∀ q mo : String, q ≠ "" → mo ≠ "" →
      filterModels all ⟨q, "", mo⟩ =
        interById (filterModels all ⟨q, "", ""⟩)
          (filterModels all ⟨"", "", mo⟩)) ∧
    (∀ o mo : String, o ≠ "" → mo ≠ "" →
      filterModels all ⟨"", o, mo⟩ =
        interById (filterModels all ⟨"", o, ""⟩)
          (filterModels all ⟨"", "", mo⟩)) ∧
    (∀ args : SearchModelsArgs, List.Sublist (filterModels all args) all) := by
  refine ⟨?_, ?_, ?_, ?_⟩
  · intro q o _ _
    unfold filterModels
    rw [interById_filter all _ _ hids]
    apply List.filter_congr
    intro m _
    exact keep_split_query_owner (toLowerS q) (toLowerS o) m
  · intro q mo _ _
    unfold filterModels
    rw [interById_filter all _ _ hids]
    apply List.filter_congr
    intro m _
    exact keep_split_query_modality (toLowerS q) (toLowerS mo) m
  · intro o mo _ _
    unfold filterModels
    rw [interById_filter all _ _ hids]
    apply List.filter_congr
    intro m _
    exact keep_split_owner_modality (toLowerS o) (toLowerS mo) m
  · intro args
    unfold filterModels
    exact List.filter_sublist all

/-- Witness for C5: intersection identity at a two-model catalog with a
query plus owner filter. -/
theorem c5_and_is_intersection_witness :
    filterModels [mGpt, mDalle] ⟨"image", "openai", ""⟩ =
      interById (filterModels [mGpt, mDalle] ⟨"image", "", ""⟩)
        (filterModels [mGpt, mDalle] ⟨"", "openai", ""⟩) :=
  (c5_and_is_intersection [mGpt, mDalle] (by decide)).1 "image" "openai"
    (by decide) (by decide)

/-- C6: all-empty criteria pass every model through in order. -/
theorem c6_empty_criteria_identity :
    ∀ all : List Model, filterModels all ⟨"", "", ""⟩ = all := by
  intro all
  have hkeep : ∀ m ∈ all,
      keepModel (toLowerS "") (toLowerS "") (toLowerS "") m = true := by
    intro m _
    exact (keepModel_eq_true_iff _ _ _ _).mpr
      ⟨Or.inl toLowerS_empty, Or.inl toLowerS_empty, Or.inl toLowerS_empty⟩
  unfold filterModels
  exact List.filter_eq_self.mpr hkeep

/-- C7: the owner criterion is exact case-insensitive equality (empty means
no constraint), `ownedBy "OpenAI"` and `ownedBy "openai"` produce the same
result, and the filter result is invariant under any case change of any
criterion field. -/
theorem c7_case_insensitive_criteria :
    (∀ (all : List Model) (o : String) (m : Model), o ≠ "" →
        (m ∈ filterModels all ⟨"", o, ""⟩ ↔
          m ∈ all ∧ toLowerS m.ownedBy = toLowerS o)) ∧
    (∀ all : List Model,
        filterModels all ⟨"", "OpenAI", ""⟩ =
          filterModels all ⟨"", "openai", ""⟩) ∧
    (∀ (all : List Model) (a b : SearchModelsArgs),
        toLowerS a.query = toLowerS b.query →
        toLowerS a.ownedBy = toLowerS b.ownedBy →
        toLowerS a.modality = toLowerS b.modality →
        filterModels all a = filterModels all b) := by
  have hgen : ∀ (all : List Model) (a b : SearchModelsArgs),
      toLowerS a.query = toLowerS b.query →
      toLowerS a.ownedBy = toLowerS b.ownedBy →
      toLowerS a.modality = toLowerS b.modality →
      filterModels all a = filterModels all b := by
    intro all a b h1 h2 h3
    unfold filterModels
    rw [h1, h2, h3]
  refine ⟨?_, ?_, hgen⟩
  · intro all o m ho
    have ho' : ¬(toLowerS o = "") := fun h => ho ((toLowerS_eq_empty_iff o).mp h)
    rw [mem_filterModels]
    simp [keepModel_eq_true_iff, toLowerS_empty, ho']
  · intro all
    exact hgen all ⟨"", "OpenAI", ""⟩ ⟨"", "openai", ""⟩ rfl (by decide) rfl

/-- Witness for C7: the owner-equality reading at a concrete model and the
general case-invariance at concrete mixed-case criteria. -/
theorem c7_case_insensitive_witness :
    (mGpt ∈ filterModels [mGpt, mDalle] ⟨"", "OpenAI", ""⟩ ↔
      mGpt ∈ [mGpt, mDalle] ∧ toLowerS mGpt.ownedBy = toLowerS "OpenAI") ∧
    filterModels [mGpt, mDalle] ⟨"GPT", "OPENAI", "TEXT"⟩ =
      filterModels [mGpt, mDalle] ⟨"gpt", "openai", "text"⟩ :=
  ⟨c7_case_insensitive_criteria.1 [mGpt, mDalle] "OpenAI" mGpt (by decide),
   c7_case_insensitive_criteria.2.2 [mGpt, mDalle] ⟨"GPT", "OPENAI", "TEXT"⟩
     ⟨"gpt", "openai", "text"⟩ (by decide) (by decide) (by decide)⟩

/-- C8: filtering an already-filtered list with the same criteria changes
nothing. -/
theorem c8_filter_idempotent :
    ∀ (all : List Model) (args : SearchModelsArgs),
      filterModels (filterModels all args) args = filterModels all args := by
  intro all args
  unfold filterModels
  exact filter_self_idem _ _

/-- C4: `formatModels` emits the header `Found N model(s):` with `N` the
list length, then one block per model separated by a blank line, each block
being exactly the newline-terminated lines of spec §4.3 in fixed order
(`specModelLines`). -/
theorem c4_format_structure :
    ∀ ms : List Model,
      formatModels ms =
        "Found " ++ toString ms.length ++ " model(s):\n\n" ++
          String.intercalate "\n" (ms.map specModelBlock) := by
  intro ms
  have hf : formatModel = specModelBlock := funext formatModel_eq_block
  unfold formatModels
  rw [hf]

/-- C10: when the pricing record is present but all four sub-fields are
absent, the block gains exactly the bare `Pricing:` line and nothing
else. -/
theorem c10_bare_pricing_line :
    ∀ m : Model, m.pricing = some ⟨none, none, none, none⟩ →
      formatModel m = formatModel { m with pricing := none } ++ "Pricing:\n" := by
  intro m h
  apply String.ext
  simp only [formatModel, h]
  simp

/-- Witness for C10 at a concrete model whose pricing record has no
sub-fields. -/
theorem c10_bare_pricing_line_witness :
    formatModel mPricingBare =
      formatModel { mPricingBare with pricing := none } ++ "Pricing:\n" :=
  c10_bare_pricing_line mPricingBare rfl
